import Mathlib

/-!
Verification development for the server-sentinel monitoring core
(shared/monitoring_utils.py, shared/formatters.py, and the collector
scripts).  Files are modelled as an optional list of lines
(`none` = the file does not exist, `some []` = it exists with zero
length); Python strings are Lean `String`s and most string processing is
carried out on `List Char` through `String.toList`.
-/

/-- The six characters Python's `str.strip` removes. -/
def isPySpace (c : Char) : Bool :=
  c = ' ' || c = '\t' || c = '\n' || c = '\r' || c = '\x0b' || c = '\x0c'

/-- Left strip, as in Python `str.lstrip`. -/
def lstripChars (cs : List Char) : List Char := cs.dropWhile isPySpace

/-- Right strip, as in Python `str.rstrip`. -/
def rstripChars (cs : List Char) : List Char :=
  (cs.reverse.dropWhile isPySpace).reverse

/-- Both-ends strip, as in Python `str.strip`. -/
def stripChars (cs : List Char) : List Char := rstripChars (lstripChars cs)

/-- `pyStrip s` models Python `s.strip()`. -/
def pyStrip (s : String) : String := String.mk (stripChars s.toList)

/-- Split a character list at every comma, as Python `s.split(',')` does
(no quote awareness). -/
def splitComma : List Char → List (List Char)
  | [] => [[]]
  | c :: rest =>
    let r := splitComma rest
    if c = ',' then [] :: r else (c :: r.headI) :: r.tail

/-- The first comma-delimited field, modelling `s.split(',')[0]`. -/
def firstField (s : String) : String := String.mk ((splitComma s.toList).headI)

/-- Numeric value of a decimal digit character. -/
def digitVal (c : Char) : Nat := c.toNat - 48

/-- Parse a non-empty all-digit character list into a natural number. -/
def parseDigits (cs : List Char) : Option Nat :=
  if cs ≠ [] ∧ cs.all Char.isDigit then
    some (cs.foldl (fun a c => 10 * a + digitVal c) 0)
  else none

/-- Model of Python `int(str)` on its common inputs: strip whitespace,
an optional single sign, then a non-empty run of decimal digits
(underscore separators are not modelled). -/
def pyIntChars (cs : List Char) : Option Int :=
  match stripChars cs with
  | [] => none
  | c :: rest =>
    if c = '-' then (parseDigits rest).map (fun n => -(n : Int))
    else if c = '+' then (parseDigits rest).map (fun n => (n : Int))
    else (parseDigits (c :: rest)).map (fun n => (n : Int))

/-- Model of Python `int(str)` on `String`. -/
def pyInt (s : String) : Option Int := pyIntChars s.toList

/-- `get_current_batch_number` from shared/monitoring_utils.py, over the
file model.  `none` means the file does not exist; otherwise the list
holds the file's lines.  Any exception inside the `try` (here: `int()`
failing to parse) is caught and yields the fallback `1`. -/
def get_current_batch_number (file : Option (List String)) : Int :=
  match file with
  | none => 1
  | some lines =>
    if lines.length ≤ 1 then 1
    else
      let last_line := pyStrip (lines.getLastD "")
      if last_line = "" then 1
      else
        match pyInt (firstField last_line) with
        | some batch_num => batch_num + 1
        | none => 1

/-- The integer the Batch Sequencer recovers from the file, when any. -/
def lastFieldInt (file : Option (List String)) : Option Int :=
  match file with
  | none => none
  | some ls =>
    if ls.length ≤ 1 then none
    else pyInt (firstField (pyStrip (ls.getLastD "")))

/-- A Python dict of string fields, as an association list with the
dict's insertion order (keys unique in practice; lookup takes the first
match, as a dict would). -/
abbrev Record := List (String × String)

/-- First-match association lookup, modelling `dict.get`. -/
def lookupR : Record → String → Option String
  | [], _ => none
  | (k, v) :: rest, key => if k = key then some v else lookupR rest key

/-- Does the field value force CSV quoting (QUOTE_MINIMAL)? -/
def needsQuote (s : String) : Bool :=
  s.toList.any (fun c => c = ',' || c = '"' || c = '\n' || c = '\r')

/-- CSV-encode one field: quote it, doubling embedded quotes, exactly
when it holds a delimiter, quote or line break. -/
def csvField (s : String) : String :=
  if needsQuote s then
    String.mk ('"' :: (s.toList.foldr
      (fun c acc => if c = '"' then '"' :: '"' :: acc else c :: acc) ['"']))
  else s

/-- Join encoded cells with commas. -/
def joinComma : List (List Char) → List Char
  | [] => []
  | [c] => c
  | c :: rest => c ++ ',' :: joinComma rest

/-- One CSV line for an ordered list of cells, as `csv.writer` emits it. -/
def csvRow (cells : List String) : String :=
  String.mk (joinComma (cells.map (fun s => (csvField s).toList)))

/-- `csv.DictWriter._dict_to_list` with the default `extrasaction='raise'`
and `restval=None` (written out as the empty string): a key outside the
declared field names raises `ValueError` (`none` here); a missing key is
silently filled with the rest value. -/
def dict_to_list (hs : List String) (r : Record) : Option (List String) :=
  if r.any (fun kv => !(hs.contains kv.1)) then none
  else some (hs.map (fun h => (lookupR r h).getD ""))

/-- The dynamic shape of the data handed to `CSVWriter.write_data`:
a single dict or a list of dicts. -/
inductive PyData where
  | dict (r : Record)
  | list (rs : List Record)

/-- Python truthiness of that value (`if not data`). -/
def PyData.isTruthy : PyData → Bool
  | .dict r => !r.isEmpty
  | .list rs => !rs.isEmpty

/-- The filesystem state a writer touches: whether the directory chain
exists, and the one target file. -/
structure FS where
  dirExists : Bool
  file : Option (List String)
deriving DecidableEq, Repr

/-- `CSVWriter.setup_file`'s existence test: the file exists and
`stat().st_size > 0`. -/
def fileHasContent (f : Option (List String)) : Bool :=
  match f with
  | none => false
  | some ls => !ls.isEmpty

/-- Write the records one `writerow` at a time onto the lines already in
the file; the first record with an undeclared key raises, leaving the
earlier rows in place. -/
def writeRows (hs : List String) : List Record → List String → Bool × List String
  | [], acc => (true, acc)
  | r :: rest, acc =>
    match dict_to_list hs r with
    | some cells => writeRows hs rest (acc ++ [csvRow cells])
    | none => (false, acc)

/-- `CSVWriter.write_data` from shared/monitoring_utils.py.  Falsy data
returns `False` before any filesystem access; otherwise `setup_file`
creates the directories and reports whether the file already has
content, the file is opened for append (created empty when missing),
the header row is written only for a new file, and each record is
appended; any `ValueError` from the dict writer is caught and turned
into a `False` result, the rows already written remaining in the file. -/
def write_data (hs : List String) (data : PyData) (fs : FS) : Bool × FS :=
  if !data.isTruthy then (false, fs)
  else
    let file_exists := fileHasContent fs.file
    let lines0 := fs.file.getD []
    let lines1 := if file_exists then lines0 else lines0 ++ [csvRow hs]
    match data with
    | .dict r =>
      match dict_to_list hs r with
      | some cells => (true, ⟨true, some (lines1 ++ [csvRow cells])⟩)
      | none => (false, ⟨true, some lines1⟩)
    | .list rs =>
      let out := writeRows hs rs lines1
      (out.1, ⟨true, some out.2⟩)

/-- `write_metrics_to_csv` from server/system/collect-server.py: returns
`False` untouched on `None` metrics; otherwise creates the directories,
decides "new" by existence alone (a zero-length file counts as
existing), writes the header only when the file is absent, then appends
the single metrics row. -/
def write_metrics_to_csv (hs : List String) (metrics : Option Record) (fs : FS) :
    Bool × FS :=
  match metrics with
  | none => (false, fs)
  | some m =>
    let file_exists := fs.file.isSome
    let lines0 := fs.file.getD []
    let lines1 := if file_exists then lines0 else lines0 ++ [csvRow hs]
    match dict_to_list hs m with
    | some cells => (true, ⟨true, some (lines1 ++ [csvRow cells])⟩)
    | none => (false, ⟨true, some lines1⟩)

/-- Field accesses of the PM2 per-item summary line
(`item['process_name']`, `item['pm_id']`, `item['memory_mb']`,
`item['cpu_percent']`, `item['status']`): all keys must be present or
the f-string raises `KeyError`. -/
def pm2ItemOk (item : Record) : Bool :=
  (lookupR item "process_name").isSome && (lookupR item "pm_id").isSome &&
  (lookupR item "memory_mb").isSome && (lookupR item "cpu_percent").isSome &&
  (lookupR item "status").isSome

/-- Field accesses of the Docker per-item summary line
(`item['container_name']`, `item['memory_mb']`, `item['cpu_percent']`,
`item['status']`). -/
def dockerItemOk (item : Record) : Bool :=
  (lookupR item "container_name").isSome && (lookupR item "memory_mb").isSome &&
  (lookupR item "cpu_percent").isSome && (lookupR item "status").isSome

/-- Does the post-success summary block of `handle_main_execution`
(monitoring_utils.py lines 133-148) run without raising?  The batched
branch is guarded on `'batch' in data[0]` but each PM2/Docker item line
subscripts its display fields unguarded; the metrics branch is guarded
on `'cpu_percent' in data` but then subscripts `data['ram_percent']`
and `data['disk_percent']` unguarded. -/
def summaryOk (component_name : String) (use_batches : Bool) (data : PyData) : Bool :=
  match data with
  | .list rs =>
    if use_batches && !rs.isEmpty && (lookupR rs.headI "batch").isSome then
      if component_name = "PM2" then rs.all pm2ItemOk
      else if component_name = "Docker" then rs.all dockerItemOk
      else true
    else true
  | .dict r =>
    if (lookupR r "cpu_percent").isSome then
      (lookupR r "ram_percent").isSome && (lookupR r "disk_percent").isSome
    else true

/-- `handle_main_execution` from shared/monitoring_utils.py: the
collector's result is `None` (hard failure, exit 1), a falsy collection
(exit 0), or data passed to `write_data` (exit 1 on write failure).
After a successful write the function prints a summary whose unguarded
subscripts can raise `KeyError` out of the function — the function has
no try/except — so the exit code is `none` (an escaped exception)
whenever the summary's field accesses fail, and `some 0` otherwise.
Returns the exit code, if any, and the final filesystem state. -/
def handle_main_execution (component_name : String) (use_batches : Bool)
    (hs : List String) (data : Option PyData) (fs : FS) : Option Int × FS :=
  match data with
  | none => (some 1, fs)
  | some d =>
    if d.isTruthy then
      let out := write_data hs d fs
      if out.1 then
        if summaryOk component_name use_batches d then (some 0, out.2)
        else (none, out.2)
      else (some 1, out.2)
    else (some 0, fs)

/-- The CSV line `DictWriter.writerow` emits for record `r` under the
declared field names: the fields in header order, a missing field
silently filled with the empty rest value. -/
def rowOf (hs : List String) (r : Record) : String :=
  csvRow (hs.map (fun f => (lookupR r f).getD ""))

/-- The record supplies exactly the declared field set. -/
def suppliesExactly (hs : List String) (r : Record) : Prop :=
  (∀ kv ∈ r, kv.1 ∈ hs) ∧ (∀ f ∈ hs, (lookupR r f).isSome)

/-- The spec's notion of a "new" file: it does not exist, or it exists
with zero length.  (Modelled from the spec's words, for comparison with
what each writer actually tests.) -/
def fileIsNewSpec (f : Option (List String)) : Bool :=
  match f with
  | none => true
  | some ls => ls.isEmpty

/-- Headers of server/system/collect-server.py. -/
def serverHeaders : List String :=
  ["timestamp", "cpu_percent", "ram_used_mb", "ram_percent", "disk_percent", "load_1min"]

/-- A concrete metrics record for the server collector. -/
def serverMetrics : Record :=
  [("timestamp", "t1"), ("cpu_percent", "2"), ("ram_used_mb", "3"),
   ("ram_percent", "4"), ("disk_percent", "5"), ("load_1min", "6")]

/-- Character class `[0-9.]` of the value regex. -/
def isDigitOrDot (c : Char) : Bool := c.isDigit || c = '.'

/-- Decimal value of a digit run. -/
def digitsNatVal (cs : List Char) : Nat :=
  cs.foldl (fun a c => 10 * a + digitVal c) 0

/-- Model of Python `float()` on the `[0-9.]+` strings the regex passes
through: at least one digit and at most one dot.  The (non-negative)
value is returned exactly, as a mantissa `m` and a decimal scale `f`
denoting `m / 10 ^ f` (binary floating point is modelled by exact
decimal arithmetic). -/
def pyFloatParts (cs : List Char) : Option (Nat × Nat) :=
  if cs.any Char.isDigit ∧ (cs.filter (fun c => c = '.')).length ≤ 1 ∧
      cs.all isDigitOrDot then
    let intPart := cs.takeWhile (fun c => c != '.')
    let fracPart := (cs.dropWhile (fun c => c != '.')).drop 1
    some (digitsNatVal (intPart ++ fracPart), fracPart.length)
  else none

/-- `round(value * fn / fd, 1)` for `value = m / 10 ^ f`, expressed in
tenths of a MB (rounding half up; the tie direction is immaterial to
the claims below and both memory parsers share this model). -/
def roundTenths (m f fn fd : Nat) : Nat :=
  (20 * m * fn + 10 ^ f * fd) / (2 * (10 ^ f * fd))

namespace Formatters

/-- `parse_memory_to_mb` from shared/formatters.py: strip, match
`([0-9.]+)([A-Za-z]*)` at the start of the string, uppercase the unit,
convert the value to MB rounded to one decimal; any failure (no match,
unparsable number, unknown unit) yields `0.0`.  The returned float is
represented by its exact number of tenths of a MB. -/
def parse_memory_to_mb (s : String) : Nat :=
  let t := stripChars s.toList
  let num := t.takeWhile isDigitOrDot
  if num.isEmpty then 0
  else
    match pyFloatParts num with
    | none => 0
    | some mf =>
      let rest := t.dropWhile isDigitOrDot
      let unit := String.mk ((rest.takeWhile Char.isAlpha).map Char.toUpper)
      if unit = "" ∨ unit = "B" then roundTenths mf.1 mf.2 1 (1024 * 1024)
      else if unit = "K" ∨ unit = "KB" ∨ unit = "KIB" then roundTenths mf.1 mf.2 1 1024
      else if unit = "M" ∨ unit = "MB" ∨ unit = "MIB" then roundTenths mf.1 mf.2 1 1
      else if unit = "G" ∨ unit = "GB" ∨ unit = "GIB" then roundTenths mf.1 mf.2 1024 1
      else 0

end Formatters

namespace CollectDocker

/-- The local `parse_memory_to_mb` copy in docker/system/collect-docker.py:
identical to the shared one except that a trailing `'B'` is removed from
the stripped string before the regex runs. -/
def parse_memory_to_mb (s : String) : Nat :=
  let t0 := stripChars s.toList
  let t := if t0.getLastD ' ' = 'B' then t0.dropLast else t0
  let num := t.takeWhile isDigitOrDot
  if num.isEmpty then 0
  else
    match pyFloatParts num with
    | none => 0
    | some mf =>
      let rest := t.dropWhile isDigitOrDot
      let unit := String.mk ((rest.takeWhile Char.isAlpha).map Char.toUpper)
      if unit = "" ∨ unit = "B" then roundTenths mf.1 mf.2 1 (1024 * 1024)
      else if unit = "K" ∨ unit = "KB" ∨ unit = "KIB" then roundTenths mf.1 mf.2 1 1024
      else if unit = "M" ∨ unit = "MB" ∨ unit = "MIB" then roundTenths mf.1 mf.2 1 1
      else if unit = "G" ∨ unit = "GB" ∨ unit = "GIB" then roundTenths mf.1 mf.2 1024 1
      else 0

end CollectDocker

/-- Decimal digits of `n`, least significant first, with enough fuel to
consume every digit (structural recursion so the kernel can run it). -/
def natDecRevAux : Nat → Nat → List Char
  | _, 0 => []
  | n, fuel + 1 =>
    if n < 10 then [Nat.digitChar n]
    else Nat.digitChar (n % 10) :: natDecRevAux (n / 10) fuel

/-- Decimal digits of `n`, least significant first. -/
def natDecRev (n : Nat) : List Char := natDecRevAux n (n + 1)

/-- Decimal digits of `n`, most significant first. -/
def natDec (n : Nat) : List Char := (natDecRev n).reverse

/-- Model of Python `str()` on an integer. -/
def intToStr (i : Int) : String :=
  if i < 0 then String.mk ('-' :: natDec i.natAbs) else String.mk (natDec i.toNat)

/-- The ten decimal digit characters. -/
def decDigits : List Char := ['0', '1', '2', '3', '4', '5', '6', '7', '8', '9']

/-- Tag a record with the invocation's batch number, as the PM2/Docker
collectors build each row dict with `'batch': batch_num` first. -/
def tagBatch (b : Int) (r : Record) : Record := ("batch", intToStr b) :: r

/-- Universal-newlines translation Python applies when the collectors
re-open the CSV in text mode (`open(csv_path, 'r')`): `'\r\n'` and a
lone `'\r'` both become `'\n'`. -/
def normalizeNewlines : List Char → List Char
  | [] => []
  | [c] => if c = '\r' then ['\n'] else [c]
  | c1 :: c2 :: rest =>
    if c1 = '\r' then
      if c2 = '\n' then '\n' :: normalizeNewlines rest
      else '\n' :: normalizeNewlines (c2 :: rest)
    else c1 :: normalizeNewlines (c2 :: rest)

/-- Split a character stream at every `'\n'` (like `splitComma`, for
the line separator). -/
def splitOnNL : List Char → List (List Char)
  | [] => [[]]
  | c :: rest =>
    let r := splitOnNL rest
    if c = '\n' then [] :: r else (c :: r.headI) :: r.tail

/-- The physical lines `readlines()` yields for a translated character
stream: newline-separated segments, a trailing empty segment (from a
final newline, or an empty file) producing no line. -/
def splitNL (cs : List Char) : List (List Char) :=
  let segs := splitOnNL cs
  if segs.getLastD [] = [] then segs.dropLast else segs

/-- The translated character stream of the file on disk: each CSV row
was written raw (`newline=''`) followed by the writer's `'\r\n'`
terminator, which universal newlines reads back as the row's own
characters normalized plus `'\n'`. -/
def fileContent (rows : List String) : List Char :=
  rows.foldr (fun r acc => normalizeNewlines r.toList ++ '\n' :: acc) []

/-- The physical lines the collectors' `readlines()` sees for a file
whose writer appended the given CSV rows: a row holding an embedded
line break inside a quoted field spans several physical lines here. -/
def readLinesOf (rows : List String) : List String :=
  (splitNL (fileContent rows)).map (fun l => String.mk l)

/-- The batch number a collector actually reads from disk:
`get_current_batch_number` applied to the physical lines of the file. -/
def next_batch_disk (file : Option (List String)) : Int :=
  get_current_batch_number (file.map readLinesOf)

/-- The string contains no line-break characters (its CSV row occupies
exactly one physical line). -/
def noNL (s : String) : Bool :=
  s.toList.all (fun c => !(c = '\n' || c = '\r'))

/-- One batch-tracked collector invocation, modelled from the PM2/Docker
main flow (collect-pm2.py / collect-docker.py): read the next batch
number from today's file, tag every collected record with it, and hand
the list to the writer.  `hs` are the headers after the leading
`"batch"` column; `others` holds each record's remaining fields. -/
def invocation (hs : List String) (others : List Record) (fs : FS) : FS :=
  (write_data ("batch" :: hs)
    (.list (others.map (tagBatch (next_batch_disk fs.file)))) fs).2

/-- Run a sequence of collector invocations. -/
def runInvocations (hs : List String) : List (List Record) → FS → FS
  | [], fs => fs
  | inv :: rest, fs => runInvocations hs rest (invocation hs inv fs)

/-- The batch number each invocation of the sequence reads and tags its
records with. -/
def batchesUsed (hs : List String) : List (List Record) → FS → List Int
  | [], _ => []
  | inv :: rest, fs =>
    next_batch_disk fs.file :: batchesUsed hs rest (invocation hs inv fs)

/-- The data rows the sequence of invocations appends, starting from
batch number `b`. -/
def blockRows (hs : List String) (b : Int) : List (List Record) → List String
  | [] => []
  | inv :: rest =>
    inv.map (fun r => rowOf ("batch" :: hs) (tagBatch b r)) ++ blockRows hs (b + 1) rest

/-- The batch field of each appended row, starting from batch `b`. -/
def batchList (b : Int) : List (List Record) → List Int
  | [] => []
  | inv :: rest => List.replicate inv.length b ++ batchList (b + 1) rest

/-- `[b, b + 1, ..., b + k - 1]`. -/
def seqFrom (b : Int) : Nat → List Int
  | 0 => []
  | k + 1 => b :: seqFrom (b + 1) k


lemma pyInt_firstField_empty : pyInt (firstField "") = none := rfl

lemma dict_to_list_of_noExtra (hs : List String) (r : Record)
    (h : ∀ kv ∈ r, kv.1 ∈ hs) :
    dict_to_list hs r = some (hs.map (fun f => (lookupR r f).getD "")) := by
  have hfalse : r.any (fun kv => !(hs.contains kv.1)) = false := by
    rw [List.any_eq_false]
    intro kv hkv
    simp [h kv hkv]
  unfold dict_to_list
  rw [if_neg (by rw [hfalse]; simp)]

lemma dict_to_list_of_extra (hs : List String) (r : Record)
    (h : ∃ kv ∈ r, kv.1 ∉ hs) :
    dict_to_list hs r = none := by
  obtain ⟨kv, hkv, hk⟩ := h
  unfold dict_to_list
  rw [if_pos]
  simp only [List.any_eq_true]
  exact ⟨kv, hkv, by simpa using hk⟩

lemma writeRows_ok (hs : List String) (rs : List Record) (acc : List String)
    (h : ∀ r ∈ rs, ∀ kv ∈ r, kv.1 ∈ hs) :
    writeRows hs rs acc = (true, acc ++ rs.map (rowOf hs)) := by
  induction rs generalizing acc with
  | nil => simp [writeRows]
  | cons r rest ih =>
    simp only [writeRows]
    rw [dict_to_list_of_noExtra hs r (h r (by simp))]
    dsimp only
    rw [ih _ (fun r' hr' => h r' (by simp [hr']))]
    simp [rowOf]

lemma writeRows_fail (hs : List String) (rs : List Record) (acc : List String)
    (h : ∃ r ∈ rs, ∃ kv ∈ r, kv.1 ∉ hs) :
    (writeRows hs rs acc).1 = false := by
  induction rs generalizing acc with
  | nil => simp at h
  | cons r rest ih =>
    simp only [writeRows]
    cases hd : dict_to_list hs r with
    | none => rfl
    | some cells =>
      obtain ⟨r', hr', hbad⟩ := h
      rcases List.mem_cons.mp hr' with heq | hmem
      · subst heq
        rw [dict_to_list_of_extra hs r' hbad] at hd
        cases hd
      · exact ih _ ⟨r', hmem, hbad⟩

/-- Successful `write_data` on a list of well-keyed records: directories
exist afterwards, the header is added exactly when the file had no
content, and the encoded rows follow in order. -/
lemma write_data_list_ok (hs : List String) (rs : List Record) (fs : FS)
    (hne : rs ≠ []) (hvalid : ∀ r ∈ rs, ∀ kv ∈ r, kv.1 ∈ hs) :
    write_data hs (.list rs) fs =
      (true, ⟨true, some ((if fileHasContent fs.file then fs.file.getD []
        else fs.file.getD [] ++ [csvRow hs]) ++ rs.map (rowOf hs))⟩) := by
  have htruthy : (PyData.list rs).isTruthy = true := by
    simp [PyData.isTruthy, hne]
  simp only [write_data, htruthy, Bool.not_true, Bool.false_eq_true, if_false]
  rw [writeRows_ok hs rs _ hvalid]

lemma write_data_list_fail (hs : List String) (rs : List Record) (fs : FS)
    (hbad : ∃ r ∈ rs, ∃ kv ∈ r, kv.1 ∉ hs) :
    (write_data hs (.list rs) fs).1 = false := by
  have hne : rs ≠ [] := by
    obtain ⟨r, hr, _⟩ := hbad
    exact List.ne_nil_of_mem hr
  have htruthy : (PyData.list rs).isTruthy = true := by
    simp [PyData.isTruthy, hne]
  simp only [write_data, htruthy, Bool.not_true, Bool.false_eq_true, if_false]
  exact writeRows_fail hs rs _ hbad

lemma fileHasContent_eq (f : Option (List String)) :
    fileHasContent f = !(fileIsNewSpec f) := by
  cases f with
  | none => rfl
  | some ls => simp [fileHasContent, fileIsNewSpec]

lemma digitChar_mem_decDigits (d : Nat) (h : d < 10) : Nat.digitChar d ∈ decDigits := by
  interval_cases d <;> decide

lemma digitVal_digitChar (d : Nat) (h : d < 10) : digitVal (Nat.digitChar d) = d := by
  interval_cases d <;> decide

lemma decDigits_isDigit (c : Char) (h : c ∈ decDigits) : c.isDigit = true := by
  fin_cases h <;> decide

lemma decDigits_not_space (c : Char) (h : c ∈ decDigits) : isPySpace c = false := by
  fin_cases h <;> decide

lemma decDigits_ne_comma (c : Char) (h : c ∈ decDigits) : c ≠ ',' := by
  fin_cases h <;> decide

lemma decDigits_ne_minus (c : Char) (h : c ∈ decDigits) : c ≠ '-' := by
  fin_cases h <;> decide

lemma decDigits_ne_plus (c : Char) (h : c ∈ decDigits) : c ≠ '+' := by
  fin_cases h <;> decide

lemma decDigits_plain (c : Char) (h : c ∈ decDigits) :
    (c = ',' || c = '"' || c = '\n' || c = '\r') = false := by
  fin_cases h <;> decide

lemma natDecRev_ne_nil (n : Nat) : natDecRev n ≠ [] := by
  rw [natDecRev, natDecRevAux]
  split <;> simp

lemma natDecRevAux_mem (fuel : Nat) :
    ∀ n, n < fuel → ∀ c ∈ natDecRevAux n fuel, c ∈ decDigits := by
  induction fuel with
  | zero => intro n hn; omega
  | succ f ih =>
    intro n hn c hc
    rw [natDecRevAux] at hc
    split at hc
    · simp only [List.mem_singleton] at hc
      subst hc
      exact digitChar_mem_decDigits n (by omega)
    · rcases List.mem_cons.mp hc with heq | hmem
      · subst heq
        exact digitChar_mem_decDigits _ (Nat.mod_lt _ (by omega))
      · have hdiv : n / 10 < n := Nat.div_lt_self (by omega) (by omega)
        exact ih (n / 10) (by omega) c hmem

lemma natDecRev_mem (n : Nat) : ∀ c ∈ natDecRev n, c ∈ decDigits :=
  natDecRevAux_mem (n + 1) n (by omega)

lemma natDec_ne_nil (n : Nat) : natDec n ≠ [] := by
  simp [natDec, natDecRev_ne_nil n]

lemma natDec_mem (n : Nat) : ∀ c ∈ natDec n, c ∈ decDigits := by
  intro c hc
  exact natDecRev_mem n c (List.mem_reverse.mp hc)

lemma natDecRevAux_foldr (fuel : Nat) :
    ∀ n, n < fuel →
      (natDecRevAux n fuel).foldr (fun c a => 10 * a + digitVal c) 0 = n := by
  induction fuel with
  | zero => intro n hn; omega
  | succ f ih =>
    intro n hn
    rw [natDecRevAux]
    split
    · next h =>
      simp [digitVal_digitChar n h]
    · next h =>
      simp only [List.foldr_cons]
      have hdiv : n / 10 < n := Nat.div_lt_self (by omega) (by omega)
      rw [ih (n / 10) (by omega)]
      rw [digitVal_digitChar (n % 10) (Nat.mod_lt _ (by omega))]
      omega

lemma natDecRev_foldr (n : Nat) :
    (natDecRev n).foldr (fun c a => 10 * a + digitVal c) 0 = n :=
  natDecRevAux_foldr (n + 1) n (by omega)

lemma parseDigits_natDec (n : Nat) : parseDigits (natDec n) = some n := by
  unfold parseDigits
  rw [if_pos]
  · congr 1
    rw [natDec, List.foldl_reverse]
    exact natDecRev_foldr n
  · refine ⟨natDec_ne_nil n, ?_⟩
    rw [List.all_eq_true]
    intro c hc
    exact decDigits_isDigit c (natDec_mem n c hc)

lemma dropWhile_all_false (p : Char → Bool) (l : List Char)
    (h : ∀ c ∈ l, p c = false) : l.dropWhile p = l := by
  cases l with
  | nil => rfl
  | cons a rest =>
    rw [List.dropWhile_cons, if_neg]
    simp [h a (by simp)]

lemma stripChars_eq_self (l : List Char) (h : ∀ c ∈ l, isPySpace c = false) :
    stripChars l = l := by
  unfold stripChars lstripChars rstripChars
  rw [dropWhile_all_false isPySpace l h]
  rw [dropWhile_all_false isPySpace l.reverse
    (fun c hc => h c (List.mem_reverse.mp hc))]
  exact l.reverse_reverse

lemma pyInt_natDec (n : Nat) :
    pyInt (String.mk (natDec n)) = some (n : Int) := by
  unfold pyInt pyIntChars
  have htl : (String.mk (natDec n)).toList = natDec n := rfl
  rw [htl]
  rw [stripChars_eq_self (natDec n) (fun c hc => decDigits_not_space c (natDec_mem n c hc))]
  cases hnd : natDec n with
  | nil => exact absurd hnd (natDec_ne_nil n)
  | cons c rest =>
    have hc : c ∈ decDigits := natDec_mem n c (by rw [hnd]; simp)
    dsimp only
    rw [if_neg (decDigits_ne_minus c hc), if_neg (decDigits_ne_plus c hc)]
    rw [← hnd, parseDigits_natDec n]
    rfl

lemma pyInt_intToStr (b : Int) (h : 0 ≤ b) : pyInt (intToStr b) = some b := by
  unfold intToStr
  rw [if_neg (by omega)]
  rw [pyInt_natDec b.toNat]
  congr 1
  omega

lemma splitComma_no_comma (a : List Char) (h : ∀ c ∈ a, c ≠ ',') :
    splitComma a = [a] := by
  induction a with
  | nil => rfl
  | cons c rest ih =>
    simp only [splitComma]
    rw [ih (fun c' hc' => h c' (by simp [hc']))]
    rw [if_neg (h c (by simp))]
    simp

lemma splitComma_append (a b : List Char) (h : ∀ c ∈ a, c ≠ ',') :
    splitComma (a ++ ',' :: b) = a :: splitComma b := by
  induction a with
  | nil =>
    simp [splitComma]
  | cons c rest ih =>
    simp only [List.cons_append, splitComma, List.append_eq]
    rw [ih (fun c' hc' => h c' (by simp [hc']))]
    rw [if_neg (h c (by simp))]
    simp

lemma rstripChars_append (xs : List Char) (y : Char) (ys : List Char)
    (hy : isPySpace y = false) :
    rstripChars (xs ++ y :: ys) = xs ++ y :: rstripChars ys := by
  unfold rstripChars
  have h1 : (xs ++ y :: ys).reverse = ys.reverse ++ y :: xs.reverse := by
    simp
  rw [h1]
  have h2 : (ys.reverse ++ y :: xs.reverse).dropWhile isPySpace =
      ys.reverse.dropWhile isPySpace ++ y :: xs.reverse := by
    rw [List.dropWhile_append]
    split
    · next hemp =>
      rw [List.isEmpty_iff] at hemp
      rw [hemp, List.nil_append, List.dropWhile_cons, if_neg (by simp [hy])]
    · rfl
  rw [h2]
  simp

lemma mk_ne_empty (l : List Char) (h : l ≠ []) : String.mk l ≠ "" := by
  intro he
  apply h
  have hd := congrArg String.data he
  simpa using hd

lemma firstField_pyStrip_digits (a rest : List Char)
    (ha : a ≠ []) (hd : ∀ c ∈ a, c ∈ decDigits)
    (hrest : rest = [] ∨ ∃ t, rest = ',' :: t) :
    firstField (pyStrip (String.mk (a ++ rest))) = String.mk a ∧
    pyStrip (String.mk (a ++ rest)) ≠ "" := by
  have htl : (String.mk (a ++ rest)).toList = a ++ rest := rfl
  have hlstrip : lstripChars (a ++ rest) = a ++ rest := by
    cases a with
    | nil => exact absurd rfl ha
    | cons c a' =>
      unfold lstripChars
      rw [List.cons_append, List.dropWhile_cons,
        if_neg (by simp [decDigits_not_space c (hd c (by simp))])]
  rcases hrest with hrest | ⟨t, hrest⟩
  · subst hrest
    have hstrip : stripChars (a ++ []) = a := by
      unfold stripChars
      rw [List.append_nil] at hlstrip ⊢
      rw [hlstrip]
      unfold rstripChars
      rw [dropWhile_all_false isPySpace a.reverse
        (fun c hc => decDigits_not_space c (hd c (List.mem_reverse.mp hc)))]
      exact a.reverse_reverse
    constructor
    · unfold firstField pyStrip
      rw [htl, hstrip]
      have : (String.mk a).toList = a := rfl
      rw [this]
      rw [splitComma_no_comma a (fun c hc => decDigits_ne_comma c (hd c hc))]
      rfl
    · unfold pyStrip
      rw [htl, hstrip]
      exact mk_ne_empty a ha
  · subst hrest
    have hstrip : stripChars (a ++ ',' :: t) = a ++ ',' :: rstripChars t := by
      unfold stripChars
      rw [hlstrip]
      exact rstripChars_append a ',' t (by decide)
    constructor
    · unfold firstField pyStrip
      rw [htl, hstrip]
      have : (String.mk (a ++ ',' :: rstripChars t)).toList = a ++ ',' :: rstripChars t := rfl
      rw [this]
      rw [splitComma_append a (rstripChars t) (fun c hc => decDigits_ne_comma c (hd c hc))]
      rfl
    · unfold pyStrip
      rw [htl, hstrip]
      exact mk_ne_empty _ (by simp)

lemma joinComma_cons (x : List Char) (xs : List (List Char)) :
    joinComma (x :: xs) = x ++ (if xs.isEmpty then [] else ',' :: joinComma xs) := by
  cases xs <;> simp [joinComma]

lemma csvField_digits (l : List Char) (h : ∀ c ∈ l, c ∈ decDigits) :
    csvField (String.mk l) = String.mk l := by
  unfold csvField
  rw [if_neg]
  unfold needsQuote
  simp only [Bool.not_eq_true]
  rw [List.any_eq_false]
  intro c hc
  have : ((String.mk l).toList = l) := rfl
  rw [this] at hc
  simp [decDigits_plain c (h c hc)]

lemma rowOf_tagBatch_toList (hs : List String) (r : Record) (b : Int) (hb : 0 ≤ b) :
    ∃ rest, (rowOf ("batch" :: hs) (tagBatch b r)).toList = natDec b.toNat ++ rest ∧
      (rest = [] ∨ ∃ t, rest = ',' :: t) := by
  have hlook : lookupR (tagBatch b r) "batch" = some (intToStr b) := by
    simp [tagBatch, lookupR]
  have hstr : intToStr b = String.mk (natDec b.toNat) := by
    unfold intToStr
    rw [if_neg (by omega)]
  unfold rowOf csvRow
  simp only [List.map_cons, hlook, Option.getD_some]
  rw [hstr, csvField_digits (natDec b.toNat) (natDec_mem b.toNat)]
  rw [joinComma_cons]
  refine ⟨_, rfl, ?_⟩
  split
  · left; rfl
  · right; exact ⟨_, rfl⟩

lemma row_parse (hs : List String) (r : Record) (b : Int) (hb : 0 ≤ b) :
    pyInt (firstField (pyStrip (rowOf ("batch" :: hs) (tagBatch b r)))) = some b ∧
    pyStrip (rowOf ("batch" :: hs) (tagBatch b r)) ≠ "" := by
  obtain ⟨rest, heq, hshape⟩ := rowOf_tagBatch_toList hs r b hb
  have hrow : rowOf ("batch" :: hs) (tagBatch b r) = String.mk (natDec b.toNat ++ rest) := by
    rw [← heq]
    exact String.ext rfl
  obtain ⟨hff, hne⟩ := firstField_pyStrip_digits (natDec b.toNat) rest
    (natDec_ne_nil b.toNat) (natDec_mem b.toNat) hshape
  rw [hrow]
  refine ⟨?_, hne⟩
  rw [hff, pyInt_natDec b.toNat]
  congr 1
  omega

lemma getLastD_irrel2 {α : Type} (l : List α) (h : l ≠ []) (d d' : α) :
    l.getLastD d = l.getLastD d' := by
  cases l with
  | nil => exact absurd rfl h
  | cons a rest => rw [List.getLastD_cons, List.getLastD_cons]

lemma gcbn_from_last (hdr : String) (rows : List String) (b : Int)
    (hrows : rows ≠ [])
    (hparse : pyInt (firstField (pyStrip (rows.getLastD ""))) = some b)
    (hne : pyStrip (rows.getLastD "") ≠ "") :
    get_current_batch_number (some (hdr :: rows)) = b + 1 := by
  simp only [get_current_batch_number]
  rw [if_neg (by
    have := List.length_pos.mpr hrows
    simp only [List.length_cons]
    omega)]
  rw [List.getLastD_cons, getLastD_irrel2 rows hrows hdr ""]
  rw [if_neg hne, hparse]

lemma getLastD_append_right {α : Type} (l1 l2 : List α) (h : l2 ≠ []) (d : α) :
    (l1 ++ l2).getLastD d = l2.getLastD d := by
  induction l1 generalizing d with
  | nil => rfl
  | cons a l1' ih =>
    rw [List.cons_append, List.getLastD_cons]
    rw [ih a]
    exact getLastD_irrel2 l2 h a d

lemma exists_getLastD_map {α β : Type} (f : α → β) (l : List α) (h : l ≠ []) :
    ∀ d : β, ∃ a ∈ l, (l.map f).getLastD d = f a := by
  induction l with
  | nil => exact absurd rfl h
  | cons x rest ih =>
    intro d
    rw [List.map_cons, List.getLastD_cons]
    by_cases hr : rest = []
    · subst hr
      exact ⟨x, by simp, by simp⟩
    · obtain ⟨a, ha, heq⟩ := ih hr (f x)
      exact ⟨a, List.mem_cons_of_mem x ha, heq⟩

lemma noNL_mem (s : String) (h : noNL s = true) :
    ∀ c ∈ s.toList, c ≠ '\n' ∧ c ≠ '\r' := by
  intro c hc
  rw [noNL, List.all_eq_true] at h
  simpa using h c hc

lemma decDigits_not_nl (c : Char) (h : c ∈ decDigits) : c ≠ '\n' ∧ c ≠ '\r' := by
  fin_cases h <;> exact ⟨by decide, by decide⟩

lemma normalizeNewlines_eq_self (l : List Char) (h : ∀ c ∈ l, c ≠ '\r') :
    normalizeNewlines l = l := by
  induction l with
  | nil => rfl
  | cons c1 rest ih =>
    cases rest with
    | nil => simp [normalizeNewlines, h c1 (by simp)]
    | cons c2 r2 =>
      rw [normalizeNewlines, if_neg (h c1 (by simp))]
      rw [ih (fun c hc => h c (by simp [hc]))]

lemma splitOnNL_ne_nil (cs : List Char) : splitOnNL cs ≠ [] := by
  cases cs with
  | nil => simp [splitOnNL]
  | cons c rest =>
    simp only [splitOnNL]
    split <;> simp

lemma splitOnNL_append (a b : List Char) (h : ∀ c ∈ a, c ≠ '\n') :
    splitOnNL (a ++ '\n' :: b) = a :: splitOnNL b := by
  induction a with
  | nil => simp [splitOnNL]
  | cons c rest ih =>
    simp only [List.cons_append, splitOnNL, List.append_eq]
    rw [ih (fun c' hc' => h c' (by simp [hc']))]
    rw [if_neg (h c (by simp))]
    simp

lemma splitNL_cons (a c' : List Char) (h : ∀ c ∈ a, c ≠ '\n') :
    splitNL (a ++ '\n' :: c') = a :: splitNL c' := by
  unfold splitNL
  rw [splitOnNL_append a c' h]
  have hne := splitOnNL_ne_nil c'
  dsimp only
  rw [List.getLastD_cons, getLastD_irrel2 (splitOnNL c') hne a []]
  split
  · cases hsg : splitOnNL c' with
    | nil => exact absurd hsg hne
    | cons x xs => simp
  · rfl

lemma readLinesOf_noNL (rows : List String) (h : ∀ r ∈ rows, noNL r = true) :
    readLinesOf rows = rows := by
  induction rows with
  | nil => rfl
  | cons r rest ih =>
    have hr := h r (by simp)
    have hih := ih (fun r' hr' => h r' (by simp [hr']))
    unfold readLinesOf fileContent at hih ⊢
    simp only [List.foldr_cons]
    rw [normalizeNewlines_eq_self r.toList (fun c hc => (noNL_mem r hr c hc).2)]
    rw [splitNL_cons r.toList _ (fun c hc => (noNL_mem r hr c hc).1)]
    simp only [List.map_cons]
    rw [hih]
    have h1 : String.mk r.toList = r := String.ext rfl
    rw [h1]

lemma next_batch_disk_eq (ls : List String) (h : ∀ r ∈ ls, noNL r = true) :
    next_batch_disk (some ls) = get_current_batch_number (some ls) := by
  unfold next_batch_disk
  rw [show (some ls).map readLinesOf = some (readLinesOf ls) from rfl]
  rw [readLinesOf_noNL ls h]

lemma mem_quoteFold (l : List Char) (c : Char)
    (hc : c ∈ l.foldr
      (fun c acc => if c = '"' then '"' :: '"' :: acc else c :: acc) ['"']) :
    c ∈ l ∨ c = '"' := by
  induction l with
  | nil =>
    simp only [List.foldr_nil, List.mem_singleton] at hc
    right; exact hc
  | cons x rest ih =>
    simp only [List.foldr_cons] at hc
    by_cases hx : x = '"'
    · rw [if_pos hx] at hc
      rcases List.mem_cons.mp hc with rfl | hc2
      · right; exact hx ▸ rfl
      · rcases List.mem_cons.mp hc2 with rfl | hc3
        · right; exact hx ▸ rfl
        · rcases ih hc3 with h1 | h1
          · left; exact List.mem_cons_of_mem x h1
          · right; exact h1
    · rw [if_neg hx] at hc
      rcases List.mem_cons.mp hc with rfl | hc2
      · left; simp
      · rcases ih hc2 with h1 | h1
        · left; exact List.mem_cons_of_mem x h1
        · right; exact h1

lemma csvField_mem (s : String) (c : Char) (hc : c ∈ (csvField s).toList) :
    c ∈ s.toList ∨ c = '"' := by
  unfold csvField at hc
  split at hc
  · have hc' : c ∈ '"' :: s.toList.foldr
        (fun c acc => if c = '"' then '"' :: '"' :: acc else c :: acc) ['"'] := hc
    rcases List.mem_cons.mp hc' with rfl | hc2
    · right; rfl
    · exact mem_quoteFold s.toList c hc2
  · left; exact hc

lemma joinComma_mem (ls : List (List Char)) (c : Char) (hc : c ∈ joinComma ls) :
    c = ',' ∨ ∃ l ∈ ls, c ∈ l := by
  induction ls with
  | nil => simp [joinComma] at hc
  | cons x xs ih =>
    cases xs with
    | nil =>
      simp only [joinComma] at hc
      right; exact ⟨x, by simp, hc⟩
    | cons y ys =>
      rw [show joinComma (x :: y :: ys) = x ++ ',' :: joinComma (y :: ys) from rfl] at hc
      rcases List.mem_append.mp hc with h1 | h2
      · right; exact ⟨x, by simp, h1⟩
      · rcases List.mem_cons.mp h2 with rfl | h3
        · left; rfl
        · rcases ih h3 with h4 | ⟨l, hl, hcl⟩
          · left; exact h4
          · right; exact ⟨l, List.mem_cons_of_mem x hl, hcl⟩

lemma csvRow_noNL (cells : List String) (h : ∀ s ∈ cells, noNL s = true) :
    noNL (csvRow cells) = true := by
  rw [noNL, List.all_eq_true]
  intro c hc
  have hc' : c ∈ joinComma (cells.map (fun s => (csvField s).toList)) := hc
  rcases joinComma_mem _ c hc' with rfl | ⟨l, hl, hcl⟩
  · decide
  · simp only [List.mem_map] at hl
    obtain ⟨s, hs, rfl⟩ := hl
    rcases csvField_mem s c hcl with hmem | rfl
    · have hn := noNL_mem s (h s hs) c hmem
      simp [hn.1, hn.2]
    · decide

lemma lookupR_mem (r : Record) (k v : String) (h : lookupR r k = some v) :
    (k, v) ∈ r := by
  induction r with
  | nil => simp [lookupR] at h
  | cons kv rest ih =>
    obtain ⟨k0, v0⟩ := kv
    simp only [lookupR] at h
    split at h
    · next heq =>
      injection h with hv
      subst heq; subst hv
      exact List.mem_cons_self _ _
    · exact List.mem_cons_of_mem _ (ih h)

lemma rowOf_noNL (hdr : List String) (rec : Record)
    (hv : ∀ kv ∈ rec, noNL kv.2 = true) :
    noNL (rowOf hdr rec) = true := by
  apply csvRow_noNL
  intro s hs
  simp only [List.mem_map] at hs
  obtain ⟨f, hf, rfl⟩ := hs
  cases hl : lookupR rec f with
  | none => simp [hl]; decide
  | some v =>
    simp only [hl, Option.getD_some]
    exact hv (f, v) (lookupR_mem rec f v hl)

lemma intToStr_noNL (b : Int) (hb : 0 ≤ b) : noNL (intToStr b) = true := by
  rw [intToStr, if_neg (by omega)]
  rw [noNL, List.all_eq_true]
  intro c hc
  have hd := decDigits_not_nl c (natDec_mem b.toNat c hc)
  simp [hd.1, hd.2]

lemma tagBatch_vals_noNL (b : Int) (hb : 0 ≤ b) (r : Record)
    (hv : ∀ kv ∈ r, noNL kv.2 = true) :
    ∀ kv ∈ tagBatch b r, noNL kv.2 = true := by
  intro kv hkv
  rcases List.mem_cons.mp hkv with rfl | hmem
  · exact intToStr_noNL b hb
  · exact hv kv hmem

lemma headerRow_noNL (hs : List String) (h : ∀ x ∈ hs, noNL x = true) :
    noNL (csvRow ("batch" :: hs)) = true := by
  apply csvRow_noNL
  intro s hs'
  rcases List.mem_cons.mp hs' with rfl | hmem
  · decide
  · exact h s hmem

lemma run_spec (hs : List String) (invs : List (List Record)) (b : Int)
    (rows : List String) (dirb : Bool)
    (hb : 1 ≤ b)
    (hhs : ∀ x ∈ hs, noNL x = true)
    (hrows : rows ≠ [])
    (hrowsNL : ∀ r ∈ rows, noNL r = true)
    (hlast : ∃ r, rows.getLastD "" = rowOf ("batch" :: hs) (tagBatch (b - 1) r))
    (hvalid : ∀ inv ∈ invs, inv ≠ [] ∧ ∀ r ∈ inv, ∀ kv ∈ r, kv.1 ∈ hs)
    (hvals : ∀ inv ∈ invs, ∀ r ∈ inv, ∀ kv ∈ r, noNL kv.2 = true) :
    batchesUsed hs invs ⟨dirb, some (csvRow ("batch" :: hs) :: rows)⟩ =
      seqFrom b invs.length ∧
    (runInvocations hs invs ⟨dirb, some (csvRow ("batch" :: hs) :: rows)⟩).file =
      some (csvRow ("batch" :: hs) :: (rows ++ blockRows hs b invs)) := by
  induction invs generalizing b rows dirb with
  | nil => simp [batchesUsed, runInvocations, seqFrom, blockRows]
  | cons inv rest ih =>
    obtain ⟨hinvne, hinvv⟩ := hvalid inv (by simp)
    obtain ⟨rl, hrl⟩ := hlast
    have hparse := row_parse hs rl (b - 1) (by omega)
    have hallNL : ∀ r' ∈ csvRow ("batch" :: hs) :: rows, noNL r' = true := by
      intro r' hr'
      rcases List.mem_cons.mp hr' with rfl | hmem
      · exact headerRow_noNL hs hhs
      · exact hrowsNL r' hmem
    have hg : next_batch_disk (some (csvRow ("batch" :: hs) :: rows)) = b := by
      rw [next_batch_disk_eq _ hallNL]
      have hgb := gcbn_from_last (csvRow ("batch" :: hs)) rows (b - 1) hrows
        (by rw [hrl]; exact hparse.1) (by rw [hrl]; exact hparse.2)
      omega
    have htag_valid : ∀ r' ∈ inv.map (tagBatch b), ∀ kv ∈ r', kv.1 ∈ ("batch" :: hs) := by
      intro r' hr' kv hkv
      simp only [List.mem_map] at hr'
      obtain ⟨r0, hr0, rfl⟩ := hr'
      rcases List.mem_cons.mp hkv with heq | hmem
      · subst heq; simp
      · exact List.mem_cons_of_mem _ (hinvv r0 hr0 kv hmem)
    have htagne : inv.map (tagBatch b) ≠ [] := by simp [hinvne]
    have hw := write_data_list_ok ("batch" :: hs) (inv.map (tagBatch b))
      ⟨dirb, some (csvRow ("batch" :: hs) :: rows)⟩ htagne htag_valid
    have hinv : invocation hs inv ⟨dirb, some (csvRow ("batch" :: hs) :: rows)⟩ =
        ⟨true, some (csvRow ("batch" :: hs) ::
          (rows ++ inv.map (fun r => rowOf ("batch" :: hs) (tagBatch b r))))⟩ := by
      unfold invocation
      rw [hg, hw]
      simp [fileHasContent, rowOf, Function.comp]
    have hrows' : rows ++ inv.map (fun r => rowOf ("batch" :: hs) (tagBatch b r)) ≠ [] := by
      simp [hrows]
    have hrowsNL' : ∀ r ∈ rows ++ inv.map (fun r => rowOf ("batch" :: hs) (tagBatch b r)),
        noNL r = true := by
      intro r' hr'
      rcases List.mem_append.mp hr' with hmem | hmem
      · exact hrowsNL r' hmem
      · simp only [List.mem_map] at hmem
        obtain ⟨r0, hr0, rfl⟩ := hmem
        exact rowOf_noNL ("batch" :: hs) (tagBatch b r0)
          (tagBatch_vals_noNL b (by omega) r0 (hvals inv (by simp) r0 hr0))
    have hlast' : ∃ r,
        (rows ++ inv.map (fun r => rowOf ("batch" :: hs) (tagBatch b r))).getLastD "" =
          rowOf ("batch" :: hs) (tagBatch (b + 1 - 1) r) := by
      obtain ⟨a, ha, heq⟩ := exists_getLastD_map
        (fun r => rowOf ("batch" :: hs) (tagBatch b r)) inv hinvne ""
      refine ⟨a, ?_⟩
      have h1 : b + 1 - 1 = b := by ring
      rw [h1]
      rw [getLastD_append_right _ _ (by simp [hinvne]) ""]
      exact heq
    have hih := ih (b + 1) (rows ++ inv.map (fun r => rowOf ("batch" :: hs) (tagBatch b r)))
      true (by omega) hrows' hrowsNL' hlast'
      (fun inv' hinv' => hvalid inv' (by simp [hinv']))
      (fun inv' hinv' => hvals inv' (by simp [hinv']))
    constructor
    · simp only [batchesUsed]
      rw [hg, hinv, hih.1]
      rfl
    · simp only [runInvocations]
      rw [hinv, hih.2]
      simp [blockRows, List.append_assoc]

lemma blockRows_parse (hs : List String) (invs : List (List Record)) (b : Int)
    (hb : 0 ≤ b) :
    (blockRows hs b invs).map (fun ln => (pyInt (firstField (pyStrip ln))).getD 0) =
      batchList b invs := by
  induction invs generalizing b with
  | nil => rfl
  | cons inv rest ih =>
    simp only [blockRows, batchList, List.map_append, List.map_map]
    congr 1
    · have hcongr : ∀ r ∈ inv,
          ((fun ln => (pyInt (firstField (pyStrip ln))).getD 0) ∘
            (fun r => rowOf ("batch" :: hs) (tagBatch b r))) r = b := by
        intro r _
        simp only [Function.comp]
        rw [(row_parse hs r b hb).1]
        rfl
      rw [List.map_congr_left hcongr]
      exact List.map_const' inv b ▸ rfl
    · exact ih (b + 1) (by omega)

lemma chain'_le_replicate (n : Nat) (b : Int) :
    List.Chain' (· ≤ ·) (List.replicate n b) := by
  induction n with
  | zero => simp
  | succ k ih =>
    rw [List.replicate_succ]
    refine List.chain'_cons'.mpr ⟨?_, ih⟩
    intro h hh
    cases k with
    | zero => simp at hh
    | succ k' =>
      rw [List.replicate_succ] at hh
      simp only [List.head?_cons, Option.mem_def, Option.some.injEq] at hh
      omega

lemma mem_batchList_ge (invs : List (List Record)) (b : Int) :
    ∀ x ∈ batchList b invs, b ≤ x := by
  induction invs generalizing b with
  | nil => simp [batchList]
  | cons inv rest ih =>
    intro x hx
    simp only [batchList, List.mem_append] at hx
    rcases hx with hx | hx
    · rw [List.eq_of_mem_replicate hx]
    · have := ih (b + 1) x hx
      omega

lemma chain'_le_batchList (invs : List (List Record)) (b : Int) :
    List.Chain' (· ≤ ·) (batchList b invs) := by
  induction invs generalizing b with
  | nil => simp [batchList]
  | cons inv rest ih =>
    simp only [batchList]
    rw [List.chain'_append]
    refine ⟨chain'_le_replicate inv.length b, ih (b + 1), ?_⟩
    intro x hx y hy
    have hxb : x = b :=
      List.eq_of_mem_replicate (List.mem_of_mem_getLast? hx)
    have hyb : b + 1 ≤ y :=
      mem_batchList_ge rest (b + 1) y (List.mem_of_mem_head? hy)
    omega

lemma chain'_lt_seqFrom (k : Nat) (b : Int) :
    List.Chain' (· < ·) (seqFrom b k) := by
  induction k generalizing b with
  | zero => simp [seqFrom]
  | succ k' ih =>
    show List.Chain' (· < ·) (b :: seqFrom (b + 1) k')
    refine List.chain'_cons'.mpr ⟨?_, ih (b + 1)⟩
    intro h hh
    cases k' with
    | zero => simp [seqFrom] at hh
    | succ k'' =>
      have : seqFrom (b + 1) (k'' + 1) = (b + 1) :: seqFrom (b + 1 + 1) k'' := rfl
      rw [this] at hh
      simp only [List.head?_cons, Option.mem_def, Option.some.injEq] at hh
      omega

lemma headI_batchList (b : Int) (inv : List Record) (rest : List (List Record))
    (h : inv ≠ []) :
    (batchList b (inv :: rest)).headI = b := by
  simp only [batchList]
  cases inv with
  | nil => exact absurd rfl h
  | cons r inv' =>
    rw [List.length_cons, List.replicate_succ]
    rfl

lemma tagged_keys (hs : List String) (inv : List Record) (b : Int)
    (hv : ∀ r ∈ inv, ∀ kv ∈ r, kv.1 ∈ hs) :
    ∀ r' ∈ inv.map (tagBatch b), ∀ kv ∈ r', kv.1 ∈ ("batch" :: hs) := by
  intro r' hr' kv hkv
  simp only [List.mem_map] at hr'
  obtain ⟨r0, hr0, rfl⟩ := hr'
  rcases List.mem_cons.mp hkv with heq | hmem
  · subst heq; simp
  · exact List.mem_cons_of_mem _ (hv r0 hr0 kv hmem)


/-- Claim C1: for every path, `get_current_batch_number` follows the
spec's algorithm — a missing file yields `1`; a file with zero or one
lines yields `1`; otherwise it returns the integer parsed from the
first comma-delimited field of the stripped last line, plus 1; an empty
last line or a parse failure (non-numeric first field) falls back to
`1`. -/
theorem C1_batch_sequencer (file : Option (List String)) :
    (file = none → get_current_batch_number file = 1) ∧
    (∀ ls, file = some ls → ls.length ≤ 1 → get_current_batch_number file = 1) ∧
    (∀ ls n, file = some ls → 2 ≤ ls.length →
      pyInt (firstField (pyStrip (ls.getLastD ""))) = some n →
      get_current_batch_number file = n + 1) ∧
    (∀ ls, file = some ls → 2 ≤ ls.length →
      pyStrip (ls.getLastD "") = "" →
      get_current_batch_number file = 1) ∧
    (∀ ls, file = some ls → 2 ≤ ls.length →
      pyInt (firstField (pyStrip (ls.getLastD ""))) = none →
      get_current_batch_number file = 1) := by
  refine ⟨?_, ?_, ?_, ?_, ?_⟩
  · intro h; subst h; rfl
  · intro ls h hle; subst h
    simp [get_current_batch_number, hle]
  · intro ls n h hlen hparse; subst h
    simp only [get_current_batch_number]
    rw [if_neg (by omega)]
    by_cases hempty : pyStrip (ls.getLastD "") = ""
    · rw [hempty] at hparse
      rw [pyInt_firstField_empty] at hparse
      exact absurd hparse (by simp)
    · rw [if_neg hempty, hparse]
  · intro ls h hlen hempty; subst h
    simp only [get_current_batch_number]
    rw [if_neg (by omega), if_pos hempty]
  · intro ls h hlen hparse; subst h
    simp only [get_current_batch_number]
    rw [if_neg (by omega)]
    by_cases hempty : pyStrip (ls.getLastD "") = ""
    · rw [if_pos hempty]
    · rw [if_neg hempty, hparse]

/-- Witness for C1 at the spec's own example: a last row with batch
field `7` yields `8`. -/
theorem C1_witness :
    2 ≤ (["batch,ts", "7,2025-01-01"] : List String).length ∧
    pyInt (firstField (pyStrip ((["batch,ts", "7,2025-01-01"] : List String).getLastD ""))) = some 7 ∧
    get_current_batch_number (some ["batch,ts", "7,2025-01-01"]) = 8 :=
  ⟨by decide, by decide,
    (C1_batch_sequencer (some ["batch,ts", "7,2025-01-01"])).2.2.1
      ["batch,ts", "7,2025-01-01"] 7 rfl (by decide) (by decide)⟩

/-- Claim C2: writing a non-empty ordered batch of records, each
supplying exactly the declared field set, to a path whose file does not
yet exist succeeds and produces exactly one header line (the declared
field names in order) followed by exactly `len(records)` data lines,
one per record in order. -/
theorem C2_fresh_write (hs : List String) (rs : List Record) (d : Bool)
    (hne : rs ≠ []) (hvalid : ∀ r ∈ rs, suppliesExactly hs r) :
    (write_data hs (.list rs) ⟨d, none⟩).1 = true ∧
    (write_data hs (.list rs) ⟨d, none⟩).2.file =
      some (csvRow hs :: rs.map (rowOf hs)) ∧
    (rs.map (rowOf hs)).length = rs.length := by
  have hk : ∀ r ∈ rs, ∀ kv ∈ r, kv.1 ∈ hs := fun r hr => (hvalid r hr).1
  rw [write_data_list_ok hs rs ⟨d, none⟩ hne hk]
  refine ⟨rfl, ?_, by simp⟩
  simp [fileHasContent]

/-- Witness for C2 at a concrete two-field record. -/
theorem C2_witness :
    ([[("a", "1"), ("b", "2")]] : List Record) ≠ [] ∧
    (∀ r ∈ ([[("a", "1"), ("b", "2")]] : List Record),
      suppliesExactly ["a", "b"] r) ∧
    (write_data ["a", "b"] (.list [[("a", "1"), ("b", "2")]]) ⟨false, none⟩).1 = true ∧
    (write_data ["a", "b"] (.list [[("a", "1"), ("b", "2")]]) ⟨false, none⟩).2.file =
      some (csvRow ["a", "b"] :: ([[("a", "1"), ("b", "2")]] : List Record).map (rowOf ["a", "b"])) ∧
    (([[("a", "1"), ("b", "2")]] : List Record).map (rowOf ["a", "b"])).length =
      ([[("a", "1"), ("b", "2")]] : List Record).length := by
  have hv : ∀ r ∈ ([[("a", "1"), ("b", "2")]] : List Record),
      suppliesExactly ["a", "b"] r := by
    intro r hr
    simp only [List.mem_singleton] at hr
    subst hr
    exact ⟨by decide, by decide⟩
  exact ⟨by decide, hv, C2_fresh_write ["a", "b"] _ false (by decide) hv⟩

/-- Claim C3: two successive successful `write_data` calls on the same
path, whose file did not exist before the first call, leave the header
line exactly once at the top of the file; the second call's rows appear
after the first call's rows, which are unchanged. -/
theorem C3_no_header_duplication (hs : List String) (rs1 rs2 : List Record) (d : Bool)
    (h1 : rs1 ≠ []) (h2 : rs2 ≠ [])
    (hv1 : ∀ r ∈ rs1, ∀ kv ∈ r, kv.1 ∈ hs)
    (hv2 : ∀ r ∈ rs2, ∀ kv ∈ r, kv.1 ∈ hs) :
    (write_data hs (.list rs1) ⟨d, none⟩).1 = true ∧
    (write_data hs (.list rs1) ⟨d, none⟩).2.file =
      some (csvRow hs :: rs1.map (rowOf hs)) ∧
    (write_data hs (.list rs2) (write_data hs (.list rs1) ⟨d, none⟩).2).1 = true ∧
    (write_data hs (.list rs2) (write_data hs (.list rs1) ⟨d, none⟩).2).2.file =
      some (csvRow hs :: (rs1.map (rowOf hs) ++ rs2.map (rowOf hs))) := by
  rw [write_data_list_ok hs rs1 ⟨d, none⟩ h1 hv1]
  have hmap1 : rs1.map (rowOf hs) ≠ [] := by simp [h1]
  refine ⟨rfl, by simp [fileHasContent], ?_, ?_⟩
  · rw [write_data_list_ok hs rs2 _ h2 hv2]
  · rw [write_data_list_ok hs rs2 _ h2 hv2]
    simp [fileHasContent, hmap1]

/-- Witness for C3 with two concrete one-record writes. -/
theorem C3_witness :
    (write_data ["a"] (.list [[("a", "1")]]) ⟨false, none⟩).1 = true ∧
    (write_data ["a"] (.list [[("a", "1")]]) ⟨false, none⟩).2.file =
      some (csvRow ["a"] :: ([[("a", "1")]] : List Record).map (rowOf ["a"])) ∧
    (write_data ["a"] (.list [[("a", "2")]])
      (write_data ["a"] (.list [[("a", "1")]]) ⟨false, none⟩).2).1 = true ∧
    (write_data ["a"] (.list [[("a", "2")]])
      (write_data ["a"] (.list [[("a", "1")]]) ⟨false, none⟩).2).2.file =
      some (csvRow ["a"] :: (([[("a", "1")]] : List Record).map (rowOf ["a"]) ++
        ([[("a", "2")]] : List Record).map (rowOf ["a"]))) :=
  C3_no_header_duplication ["a"] [[("a", "1")]] [[("a", "2")]] false
    (by decide) (by decide)
    (by intro r hr; simp only [List.mem_singleton] at hr; subst hr; decide)
    (by intro r hr; simp only [List.mem_singleton] at hr; subst hr; decide)

/-- Claim C4 counterexample: a collector outcome whose write succeeds
but whose success summary subscripts a missing field — here the metrics
dict `{'cpu_percent': '5'}`, written successfully under header
`[cpu_percent]`, whose summary then evaluates `data['ram_percent']` —
makes `handle_main_execution` raise `KeyError` (exit code `none`)
instead of returning an exit code in {0, 1}. -/
theorem C4_counterexample :
    (write_data ["cpu_percent"] (.dict [("cpu_percent", "5")]) ⟨false, none⟩).1 = true ∧
    handle_main_execution "Server" false ["cpu_percent"]
      (some (.dict [("cpu_percent", "5")])) ⟨false, none⟩ =
      (none, ⟨true, some ["cpu_percent", "5"]⟩) := by
  exact ⟨rfl, rfl⟩

/-- Claim C4 as amended: `handle_main_execution` exits `1` on a `None`
collector result and `0` on an empty collection — leaving the
filesystem untouched in both cases — and exits `1` when the writer
fails; when the writer succeeds it exits `0` provided the unguarded
success-summary field accesses all find their keys, and otherwise
raises `KeyError` out of the function instead of returning.  Whenever
an exit code is returned at all, it is `0` or `1`. -/
theorem C4_exit_codes (cn : String) (ub : Bool) (hs : List String) (fs : FS)
    (d : PyData) (od : Option PyData) :
    handle_main_execution cn ub hs none fs = (some 1, fs) ∧
    handle_main_execution cn ub hs (some (.list [])) fs = (some 0, fs) ∧
    handle_main_execution cn ub hs (some (.dict [])) fs = (some 0, fs) ∧
    (d.isTruthy = true → (write_data hs d fs).1 = false →
      handle_main_execution cn ub hs (some d) fs = (some 1, (write_data hs d fs).2)) ∧
    (d.isTruthy = true → (write_data hs d fs).1 = true → summaryOk cn ub d = true →
      handle_main_execution cn ub hs (some d) fs = (some 0, (write_data hs d fs).2)) ∧
    (d.isTruthy = true → (write_data hs d fs).1 = true → summaryOk cn ub d = false →
      handle_main_execution cn ub hs (some d) fs = (none, (write_data hs d fs).2)) ∧
    (∀ e ∈ (handle_main_execution cn ub hs od fs).1, e = 0 ∨ e = 1) := by
  refine ⟨rfl, rfl, rfl, ?_, ?_, ?_, ?_⟩
  · intro ht hw
    simp [handle_main_execution, ht, hw]
  · intro ht hw hsum
    simp [handle_main_execution, ht, hw, hsum]
  · intro ht hw hsum
    simp [handle_main_execution, ht, hw, hsum]
  · match od with
    | none =>
      intro e he
      simp only [handle_main_execution, Option.mem_def, Option.some.injEq] at he
      omega
    | some d' =>
      intro e he
      by_cases ht : d'.isTruthy
      · by_cases hw : (write_data hs d' fs).1
        · by_cases hsum : summaryOk cn ub d'
          · simp [handle_main_execution, ht, hw, hsum] at he
            omega
          · simp [handle_main_execution, ht, hw, hsum] at he
        · simp [handle_main_execution, ht, hw] at he
          omega
      · simp [handle_main_execution, ht] at he
        omega

/-- Witness for C4 on a concrete collection whose write succeeds and
whose summary is safe. -/
theorem C4_witness :
    (PyData.list [[("a", "1")]]).isTruthy = true ∧
    (write_data ["a"] (.list [[("a", "1")]]) ⟨false, none⟩).1 = true ∧
    summaryOk "X" false (.list [[("a", "1")]]) = true ∧
    handle_main_execution "X" false ["a"] (some (.list [[("a", "1")]])) ⟨false, none⟩ =
      (some 0, (write_data ["a"] (.list [[("a", "1")]]) ⟨false, none⟩).2) :=
  ⟨rfl, rfl, rfl,
    (C4_exit_codes "X" false ["a"] ⟨false, none⟩ (.list [[("a", "1")]]) none).2.2.2.2.1
      rfl rfl rfl⟩

/-- Claim C5 counterexample: on an existing zero-length file — "new"
by the spec's definition — the server collector's writer appends the
data row without any header line, so the claim's "header iff new, for
every writer" fails at this input. -/
theorem C5_counterexample :
    fileIsNewSpec (some []) = true ∧
    write_metrics_to_csv serverHeaders (some serverMetrics) ⟨true, some []⟩ =
      (true, ⟨true, some ["t1,2,3,4,5,6"]⟩) ∧
    "t1,2,3,4,5,6" ≠ csvRow serverHeaders := by
  refine ⟨rfl, by decide, by decide⟩

/-- Claim C5 as amended: `CSVWriter.write_data` writes the header row
iff the target file is new in the spec's sense (absent, or existing
with zero length), but the server collector's `write_metrics_to_csv`
writes the header iff the file is absent — an existing zero-length file
receives no header there. -/
theorem C5_header_iff_new (hs : List String) (fs : FS) (rs : List Record) (m : Record)
    (hne : rs ≠ []) (hv : ∀ r ∈ rs, ∀ kv ∈ r, kv.1 ∈ hs)
    (hvm : ∀ kv ∈ m, kv.1 ∈ hs) :
    (write_data hs (.list rs) fs).2.file =
      some ((fs.file.getD []) ++ (if fileIsNewSpec fs.file then [csvRow hs] else []) ++
        rs.map (rowOf hs)) ∧
    (write_metrics_to_csv hs (some m) fs).2.file =
      some ((fs.file.getD []) ++ (if fs.file.isSome then [] else [csvRow hs]) ++
        [rowOf hs m]) := by
  constructor
  · rw [write_data_list_ok hs rs fs hne hv]
    rw [fileHasContent_eq]
    cases hnew : fileIsNewSpec fs.file <;> simp
  · simp only [write_metrics_to_csv]
    rw [dict_to_list_of_noExtra hs m hvm]
    cases hex : fs.file.isSome <;> simp [hex, rowOf]

/-- Witness for C5 on a zero-length existing file. -/
theorem C5_witness :
    ([[("a", "1")]] : List Record) ≠ [] ∧
    (write_data ["a"] (.list [[("a", "1")]]) ⟨true, some []⟩).2.file =
      some (((some [] : Option (List String)).getD []) ++
        (if fileIsNewSpec (some []) then [csvRow ["a"]] else []) ++
        ([[("a", "1")]] : List Record).map (rowOf ["a"])) ∧
    (write_metrics_to_csv ["a"] (some [("a", "1")]) ⟨true, some []⟩).2.file =
      some (((some [] : Option (List String)).getD []) ++
        (if (some [] : Option (List String)).isSome then [] else [csvRow ["a"]]) ++
        [rowOf ["a"] [("a", "1")]]) := by
  have h := C5_header_iff_new ["a"] ⟨true, some []⟩ [[("a", "1")]] [("a", "1")]
    (by decide)
    (by intro r hr; simp only [List.mem_singleton] at hr; subst hr; decide)
    (by decide)
  exact ⟨by decide, h.1, h.2⟩

/-- Claim C6: `write_data` with zero records (an empty list, and
likewise an empty dict) returns failure and performs no filesystem
operation: the directory flag and the file are exactly as before. -/
theorem C6_empty_data_noop (hs : List String) (fs : FS) :
    write_data hs (.list []) fs = (false, fs) ∧
    write_data hs (.dict []) fs = (false, fs) :=
  ⟨rfl, rfl⟩

/-- Claim C7 counterexample: a record missing the declared field "b"
is not rejected — the row is written with the missing value filled in
as empty and the call reports success. -/
theorem C7_counterexample :
    write_data ["a", "b"] (.list [[("a", "1")]]) ⟨false, none⟩ =
      (true, ⟨true, some ["a,b", "1,"]⟩) := by
  decide

/-- Claim C7 as amended: a record carrying a field outside the declared
header set makes the call fail for that batch (`ValueError` from the
dict writer), but a record merely missing a declared field is silently
coerced — the missing value is written as the empty rest value and the
call reports success. -/
theorem C7_extra_fatal_missing_coerced (hs : List String) (rs : List Record) (fs : FS) :
    ((∃ r ∈ rs, ∃ kv ∈ r, kv.1 ∉ hs) → (write_data hs (.list rs) fs).1 = false) ∧
    (rs ≠ [] → (∀ r ∈ rs, ∀ kv ∈ r, kv.1 ∈ hs) →
      write_data hs (.list rs) fs =
        (true, ⟨true, some ((if fileHasContent fs.file then fs.file.getD []
          else fs.file.getD [] ++ [csvRow hs]) ++
          rs.map (fun r => csvRow (hs.map (fun f => (lookupR r f).getD ""))))⟩)) := by
  constructor
  · exact fun hbad => write_data_list_fail hs rs fs hbad
  · intro hne hv
    exact write_data_list_ok hs rs fs hne hv

/-- Witness for C7 with a record carrying an undeclared field. -/
theorem C7_witness :
    (∃ r ∈ ([[("a", "1"), ("c", "2")]] : List Record), ∃ kv ∈ r, kv.1 ∉ ["a", "b"]) ∧
    (write_data ["a", "b"] (.list [[("a", "1"), ("c", "2")]]) ⟨false, none⟩).1 = false := by
  have hbad : ∃ r ∈ ([[("a", "1"), ("c", "2")]] : List Record),
      ∃ kv ∈ r, kv.1 ∉ ["a", "b"] := by decide
  exact ⟨hbad,
    (C7_extra_fatal_missing_coerced ["a", "b"] [[("a", "1"), ("c", "2")]] ⟨false, none⟩).1 hbad⟩

/-- Claim C8 counterexample: a file whose last line's first field is
`-5` makes `get_current_batch_number` return `-4`, which is below the
claimed lower bound of `1`. -/
theorem C8_counterexample :
    get_current_batch_number (some ["batch,x", "-5,y"]) = -4 ∧
    ¬(1 ≤ get_current_batch_number (some ["batch,x", "-5,y"])) := by
  refine ⟨by decide, by decide⟩

/-- Claim C8 as amended: `get_current_batch_number` returns an integer
`≥ 1` for every file whose recoverable last-line batch field, if it
parses as an integer at all, is non-negative; a negative stored batch
field is the only way below `1`. -/
theorem C8_next_batch_ge_one (file : Option (List String))
    (h : ∀ n : Int, lastFieldInt file = some n → 0 ≤ n) :
    1 ≤ get_current_batch_number file := by
  match file with
  | none => decide
  | some ls =>
    simp only [get_current_batch_number]
    by_cases hlen : ls.length ≤ 1
    · rw [if_pos hlen]
    · rw [if_neg hlen]
      by_cases hempty : pyStrip (ls.getLastD "") = ""
      · rw [if_pos hempty]
      · rw [if_neg hempty]
        cases hp : pyInt (firstField (pyStrip (ls.getLastD ""))) with
        | none => simp
        | some n =>
          have h0 : 0 ≤ n := by
            apply h
            simp only [lastFieldInt]
            rw [if_neg hlen]
            exact hp
          simp only []
          omega

/-- Witness for C8 on a file whose last batch field is `7`. -/
theorem C8_witness :
    (∀ n : Int, lastFieldInt (some ["batch,x", "7,y"]) = some n → 0 ≤ n) ∧
    1 ≤ get_current_batch_number (some ["batch,x", "7,y"]) := by
  have h : ∀ n : Int, lastFieldInt (some ["batch,x", "7,y"]) = some n → 0 ≤ n := by
    intro n hn
    rw [show lastFieldInt (some ["batch,x", "7,y"]) = some 7 from rfl] at hn
    injection hn with h2
    omega
  exact ⟨h, C8_next_batch_ge_one _ h⟩

/-- Claim C9 counterexample: a record value containing a line break is
written as a quoted field spanning two physical lines, so the next
invocation's `readlines()`-based batch read parses the dangling second
physical line, fails, and resets to batch `1`: the batch numbers used
by two successive invocations are `[1, 1]`, not strictly increasing. -/
theorem C9_counterexample :
    batchesUsed ["v"] [[[("v", "x\ny")]], [[("v", "z")]]] ⟨false, none⟩ = [1, 1] ∧
    ¬ List.Chain' (· < ·)
      (batchesUsed ["v"] [[[("v", "x\ny")]], [[("v", "z")]]] ⟨false, none⟩) := by
  have h1 : batchesUsed ["v"] [[[("v", "x\ny")]], [[("v", "z")]]] ⟨false, none⟩ =
      [1, 1] := by decide
  refine ⟨h1, ?_⟩
  rw [h1]
  intro hch
  have h2 := (List.chain'_cons.mp hch).1
  omega

/-- Claim C9 as amended: over every sequence of the system's own
operations — each invocation reads the next batch number from the
file's physical lines, tags its records with it and appends them —
*provided header names and record values contain no line-break
characters* (so each CSV row is one physical line), the numbers used
strictly increase between invocations starting from `1`, the batch
fields recovered from the file's data rows are non-decreasing across
appends, and the first record written to the newly created file has
batch field `1`.  A record value holding an embedded newline voids
this: the batch read resets (see the counterexample). -/
theorem C9_batch_monotonicity (hs : List String) (invs : List (List Record)) (d : Bool)
    (hne : invs ≠ [])
    (hhs : ∀ x ∈ hs, noNL x = true)
    (hvalid : ∀ inv ∈ invs, inv ≠ [] ∧ ∀ r ∈ inv, ∀ kv ∈ r, kv.1 ∈ hs)
    (hvals : ∀ inv ∈ invs, ∀ r ∈ inv, ∀ kv ∈ r, noNL kv.2 = true) :
    batchesUsed hs invs ⟨d, none⟩ = seqFrom 1 invs.length ∧
    (runInvocations hs invs ⟨d, none⟩).file =
      some (csvRow ("batch" :: hs) :: blockRows hs 1 invs) ∧
    (blockRows hs 1 invs).map (fun ln => (pyInt (firstField (pyStrip ln))).getD 0) =
      batchList 1 invs ∧
    List.Chain' (· ≤ ·) (batchList 1 invs) ∧
    (batchList 1 invs).headI = 1 ∧
    List.Chain' (· < ·) (batchesUsed hs invs ⟨d, none⟩) := by
  cases invs with
  | nil => exact absurd rfl hne
  | cons inv rest =>
    obtain ⟨hinvne, hinvv⟩ := hvalid inv (by simp)
    have hw1 := write_data_list_ok ("batch" :: hs) (inv.map (tagBatch 1)) ⟨d, none⟩
      (by simp [hinvne]) (tagged_keys hs inv 1 hinvv)
    have hinv1 : invocation hs inv ⟨d, none⟩ =
        ⟨true, some (csvRow ("batch" :: hs) ::
          inv.map (fun r => rowOf ("batch" :: hs) (tagBatch 1 r)))⟩ := by
      have hstep : invocation hs inv ⟨d, none⟩ =
          (write_data ("batch" :: hs) (.list (inv.map (tagBatch 1))) ⟨d, none⟩).2 := rfl
      rw [hstep, hw1]
      simp [fileHasContent, rowOf, Function.comp]
    have hb1ne : inv.map (fun r => rowOf ("batch" :: hs) (tagBatch 1 r)) ≠ [] := by
      simp [hinvne]
    have hb1NL : ∀ r ∈ inv.map (fun r => rowOf ("batch" :: hs) (tagBatch 1 r)),
        noNL r = true := by
      intro r' hr'
      simp only [List.mem_map] at hr'
      obtain ⟨r0, hr0, rfl⟩ := hr'
      exact rowOf_noNL ("batch" :: hs) (tagBatch 1 r0)
        (tagBatch_vals_noNL 1 (by norm_num) r0 (hvals inv (by simp) r0 hr0))
    have hlast1 : ∃ r,
        (inv.map (fun r => rowOf ("batch" :: hs) (tagBatch 1 r))).getLastD "" =
          rowOf ("batch" :: hs) (tagBatch ((2 : Int) - 1) r) := by
      obtain ⟨a, ha, heq⟩ := exists_getLastD_map
        (fun r => rowOf ("batch" :: hs) (tagBatch 1 r)) inv hinvne ""
      refine ⟨a, ?_⟩
      rw [show ((2 : Int) - 1) = 1 by norm_num]
      exact heq
    have hrun := run_spec hs rest 2
      (inv.map (fun r => rowOf ("batch" :: hs) (tagBatch 1 r))) true
      (by norm_num) hhs hb1ne hb1NL hlast1
      (fun inv' hinv' => hvalid inv' (by simp [hinv']))
      (fun inv' hinv' => hvals inv' (by simp [hinv']))
    have hbu : batchesUsed hs (inv :: rest) ⟨d, none⟩ =
        seqFrom 1 (inv :: rest).length := by
      simp only [batchesUsed]
      rw [hinv1, hrun.1]
      rfl
    have hblocks : blockRows hs 1 (inv :: rest) =
        inv.map (fun r => rowOf ("batch" :: hs) (tagBatch 1 r)) ++ blockRows hs 2 rest := rfl
    have hfile : (runInvocations hs (inv :: rest) ⟨d, none⟩).file =
        some (csvRow ("batch" :: hs) :: blockRows hs 1 (inv :: rest)) := by
      simp only [runInvocations]
      rw [hinv1, hrun.2, hblocks]
    exact ⟨hbu, hfile, blockRows_parse hs (inv :: rest) 1 (by norm_num),
      chain'_le_batchList (inv :: rest) 1, headI_batchList 1 inv rest hinvne,
      by rw [hbu]; exact chain'_lt_seqFrom (inv :: rest).length 1⟩

/-- Witness for C9 on two concrete newline-free invocations. -/
theorem C9_witness :
    (([[[("v", "x")]], [[("v", "y")], [("v", "z")]]] : List (List Record)) ≠ []) ∧
    (∀ x ∈ (["v"] : List String), noNL x = true) ∧
    (∀ inv ∈ ([[[("v", "x")]], [[("v", "y")], [("v", "z")]]] : List (List Record)),
      inv ≠ [] ∧ ∀ r ∈ inv, ∀ kv ∈ r, kv.1 ∈ ["v"]) ∧
    (∀ inv ∈ ([[[("v", "x")]], [[("v", "y")], [("v", "z")]]] : List (List Record)),
      ∀ r ∈ inv, ∀ kv ∈ r, noNL kv.2 = true) ∧
    (batchesUsed ["v"] [[[("v", "x")]], [[("v", "y")], [("v", "z")]]] ⟨false, none⟩ =
      seqFrom 1 ([[[("v", "x")]], [[("v", "y")], [("v", "z")]]] : List (List Record)).length ∧
    (runInvocations ["v"] [[[("v", "x")]], [[("v", "y")], [("v", "z")]]] ⟨false, none⟩).file =
      some (csvRow ("batch" :: ["v"]) ::
        blockRows ["v"] 1 [[[("v", "x")]], [[("v", "y")], [("v", "z")]]]) ∧
    (blockRows ["v"] 1 [[[("v", "x")]], [[("v", "y")], [("v", "z")]]]).map
        (fun ln => (pyInt (firstField (pyStrip ln))).getD 0) =
      batchList 1 [[[("v", "x")]], [[("v", "y")], [("v", "z")]]] ∧
    List.Chain' (· ≤ ·) (batchList 1 [[[("v", "x")]], [[("v", "y")], [("v", "z")]]]) ∧
    (batchList 1 [[[("v", "x")]], [[("v", "y")], [("v", "z")]]]).headI = 1 ∧
    List.Chain' (· < ·)
      (batchesUsed ["v"] [[[("v", "x")]], [[("v", "y")], [("v", "z")]]] ⟨false, none⟩)) := by
  have h2 : ∀ inv ∈ ([[[("v", "x")]], [[("v", "y")], [("v", "z")]]] : List (List Record)),
      inv ≠ [] ∧ ∀ r ∈ inv, ∀ kv ∈ r, kv.1 ∈ ["v"] := by decide
  have h3 : ∀ inv ∈ ([[[("v", "x")]], [[("v", "y")], [("v", "z")]]] : List (List Record)),
      ∀ r ∈ inv, ∀ kv ∈ r, noNL kv.2 = true := by decide
  exact ⟨by decide, by decide, h2, h3,
    C9_batch_monotonicity ["v"] [[[("v", "x")]], [[("v", "y")], [("v", "z")]]] false
      (by decide) (by decide) h2 h3⟩

/-- Claim C10 refuted (code bug): on Docker binary-unit strings the
shared parser and the local copy in collect-docker.py disagree — the
local copy, after removing the trailing `'B'`, is left with units
`MI`/`GI`/`KI` that match no branch and falls through to `0.0`,
contradicting its own docstring.  Values are in tenths of a MB: the
shared parser gives 123.4, 1228.8 and 0.4 MB here; the local copy gives
0.0 for all three. -/
theorem C10_duplicate_parser_divergence :
    Formatters.parse_memory_to_mb "123.4MiB" = 1234 ∧
    CollectDocker.parse_memory_to_mb "123.4MiB" = 0 ∧
    Formatters.parse_memory_to_mb "1.2GiB" = 12288 ∧
    CollectDocker.parse_memory_to_mb "1.2GiB" = 0 ∧
    Formatters.parse_memory_to_mb "456KiB" = 4 ∧
    CollectDocker.parse_memory_to_mb "456KiB" = 0 ∧
    Formatters.parse_memory_to_mb "123.4MiB" ≠ CollectDocker.parse_memory_to_mb "123.4MiB" := by
  refine ⟨by decide, by decide, by decide, by decide, by decide, by decide, by decide⟩
